import Mathlib

/-!
# Verification of the sbvm stack-based virtual machine

Shallow embedding of `src/sbvm.c`: the operand stack, the call stack,
the growable code segment, and the fetch-decode-execute loop `vm_run`.

Modelling conventions:
* `int32_t` values are modelled as `Int`; arithmetic results are wrapped
  into the signed 32-bit range with `wrap32` (two's-complement wraparound).
* `uint8_t` bytes are modelled as `Nat`; `code_segment_write` truncates its
  argument modulo 256, mirroring the implicit conversion to `uint8_t` at the
  call boundary.
* Process-fatal faults (`exit(1)` after "Stack overflow", "Stack Underflow",
  "Empty Stack") are modelled with `Except.error`; run-level faults
  (division by zero, unknown opcode) print a diagnostic to the `errors`
  channel, clear the `running` flag and let the loop return normally,
  exactly as the C `break` does.
* `printf("%d\n", v)` is modelled by appending the printed value to the
  `output` list; each element stands for the decimal rendering of the value
  followed by a newline.
-/

namespace SBVM

/-- `#define STACK_MAX_SIZE 1024` -/
def STACK_MAX_SIZE : Int := 1024

/-- The operand stack: `int32_t data[STACK_MAX_SIZE]; int32_t top;`.
The fixed array is modelled as a total map from indices to values. -/
structure Stack where
  data : Int → Int
  top : Int

/-- `stack_init`: sets `top = -1` (array contents are unspecified in C;
the model initialises them to 0, which no claim depends on). -/
def stack_init : Stack := ⟨fun _ => 0, -1⟩

/-- `stack_isEmpty`: `s->top == -1`. -/
def stack_isEmpty (s : Stack) : Bool := s.top == -1

/-- `stack_isFull`: `s->top >= STACK_MAX_SIZE - 1`. -/
def stack_isFull (s : Stack) : Bool := decide (STACK_MAX_SIZE - 1 ≤ s.top)

/-- `stack_push`: overflow is process-fatal (`exit(1)`), otherwise
`s->data[++s->top] = val`. -/
def stack_push (s : Stack) (val : Int) : Except String Stack :=
  if stack_isFull s then .error "Stack overflow"
  else .ok ⟨fun i => if i = s.top + 1 then val else s.data i, s.top + 1⟩

/-- `stack_pop`: underflow is process-fatal, otherwise
`return s->data[s->top--]`. -/
def stack_pop (s : Stack) : Except String (Int × Stack) :=
  if stack_isEmpty s then .error "Stack Underflow"
  else .ok (s.data s.top, ⟨s.data, s.top - 1⟩)

/-- `stack_peek`: fatal if `s->top < 0`, otherwise `return s->data[s->top]`. -/
def stack_peek (s : Stack) : Except String Int :=
  if s.top < 0 then .error "Empty Stack"
  else .ok (s.data s.top)

/-- `CallFrame`: return instruction pointer plus saved frame pointer. -/
structure CallFrame where
  return_addr : Nat
  frame_pointer : Int

/-- `#define CALL_STACK_MAX 256` -/
def CALL_STACK_MAX : Int := 256

/-- The call stack: `CallFrame frames[CALL_STACK_MAX]; int32_t count;`. -/
structure CallStack where
  frames : Int → CallFrame
  count : Int

/-- `call_stack_init`: `cs->count = 0`. -/
def call_stack_init : CallStack := ⟨fun _ => ⟨0, 0⟩, 0⟩

/-- `call_stack_push`: overflow is process-fatal, otherwise records the
frame at index `count` and increments `count`. -/
def call_stack_push (cs : CallStack) (return_addr : Nat) (frame_pointer : Int) :
    Except String CallStack :=
  if CALL_STACK_MAX ≤ cs.count then .error "Call stack overflow"
  else .ok ⟨fun i => if i = cs.count then ⟨return_addr, frame_pointer⟩ else cs.frames i,
            cs.count + 1⟩

/-- `call_stack_pop`: underflow is process-fatal, otherwise
`return cs->frames[--cs->count]`. -/
def call_stack_pop (cs : CallStack) : Except String (CallFrame × CallStack) :=
  if cs.count ≤ 0 then .error "Call stack underflow"
  else .ok (cs.frames (cs.count - 1), ⟨cs.frames, cs.count - 1⟩)

/-- `CodeSegment`: growable byte buffer with logical `length` and allocated
`capacity`; the buffer is modelled as a total map from indices to bytes. -/
structure CodeSegment where
  code : Nat → Nat
  length : Nat
  capacity : Nat

/-- `code_segment_init`: fresh buffer of the given capacity, `length = 0`
(`malloc` contents are unspecified; the model uses 0). -/
def code_segment_init (initial_capacity : Nat) : CodeSegment :=
  ⟨fun _ => 0, 0, initial_capacity⟩

/-- `code_segment_write`: doubles the capacity when full (`realloc`
preserves the existing bytes), then `seg->code[seg->length++] = byte`.
The argument is truncated modulo 256 (conversion to `uint8_t`). -/
def code_segment_write (seg : CodeSegment) (byte : Nat) : CodeSegment :=
  let seg' := if seg.capacity ≤ seg.length
    then { seg with capacity := seg.capacity * 2 } else seg
  { seg' with
    code := fun i => if i = seg'.length then byte % 256 else seg'.code i,
    length := seg'.length + 1 }

/-- Builds a code segment by appending each byte of a list in order. -/
def code_segment_writeAll (seg : CodeSegment) (bytes : List Nat) : CodeSegment :=
  bytes.foldl code_segment_write seg

/-! ## Opcodes (the `OpCode` enum, in declaration order) -/

def OP_NOP : Nat := 0
def OP_PUSH : Nat := 1
def OP_POP : Nat := 2
def OP_DUP : Nat := 3
def OP_SWAP : Nat := 4
def OP_ADD : Nat := 5
def OP_SUB : Nat := 6
def OP_MUL : Nat := 7
def OP_DIV : Nat := 8
def OP_JMP : Nat := 9
def OP_JZ : Nat := 10
def OP_JNZ : Nat := 11
def OP_CALL : Nat := 12
def OP_RET : Nat := 13
def OP_LOAD : Nat := 14
def OP_STORE : Nat := 15
def OP_PRINT : Nat := 16
def OP_STOP : Nat := 17

/-- Two's-complement wraparound into the signed 32-bit range
`[-2^31, 2^31)`, applied where the C code stores an `int32_t` result. -/
def wrap32 (n : Int) : Int := (n + 2 ^ 31) % 2 ^ 32 - 2 ^ 31

/-- The VM: a reference to one code segment, an operand stack, and the
running flag. (The C struct has no call stack and no memory: the enum
declares `OP_JMP` … `OP_STORE` but the dispatch loop does not handle them.) -/
structure VM where
  code_segment : CodeSegment
  stack : Stack
  running : Bool

/-- `vm_init`: attaches the code segment, initialises the stack,
`running = false`. -/
def vm_init (code : CodeSegment) : VM :=
  ⟨code, stack_init, false⟩

/-- Result of a `vm_run` that returned (rather than `exit(1)`-ing):
the final VM, the final value of the local instruction pointer, the values
printed on stdout, and the diagnostics printed on stderr. -/
structure RunResult where
  vm : VM
  finalIp : Nat
  output : List Int
  errors : List String

/-- The body of `vm_run`'s `while (vm->running && ip < length)` loop.
One branch per `case` of the C `switch`, in source order; `vm_push`/`vm_pop`
are inlined as updates of `vm.stack` (they only forward to `stack_push` /
`stack_pop`).  `OP_STOP`, division by zero and the `default` case clear
`running` and `break`, after which the loop condition fails and the
function returns; the model returns directly from those branches. -/
def vm_loop (vm : VM) (ip : Nat) (out : List Int) (errs : List String) :
    Except String RunResult :=
  if h : vm.running = true ∧ ip < vm.code_segment.length then
    match vm.code_segment.code ip with
    | 0 => -- OP_NOP
      vm_loop vm (ip + 1) out errs
    | 1 => -- OP_PUSH: read the immediate byte `value`, zero-extended to int32
      match stack_push vm.stack (vm.code_segment.code (ip + 1) : Int) with
      | .error e => .error e
      | .ok s => vm_loop { vm with stack := s } (ip + 2) out errs
    | 2 => -- OP_POP
      match stack_pop vm.stack with
      | .error e => .error e
      | .ok (_, s) => vm_loop { vm with stack := s } (ip + 1) out errs
    | 3 => -- OP_DUP
      match stack_peek vm.stack with
      | .error e => .error e
      | .ok value =>
        match stack_push vm.stack value with
        | .error e => .error e
        | .ok s => vm_loop { vm with stack := s } (ip + 1) out errs
    | 4 => -- OP_SWAP
      match stack_pop vm.stack with
      | .error e => .error e
      | .ok (a, s1) =>
        match stack_pop s1 with
        | .error e => .error e
        | .ok (b, s2) =>
          match stack_push s2 a with
          | .error e => .error e
          | .ok s3 =>
            match stack_push s3 b with
            | .error e => .error e
            | .ok s4 => vm_loop { vm with stack := s4 } (ip + 1) out errs
    | 5 => -- OP_ADD
      match stack_pop vm.stack with
      | .error e => .error e
      | .ok (b, s1) =>
        match stack_pop s1 with
        | .error e => .error e
        | .ok (a, s2) =>
          match stack_push s2 (wrap32 (a + b)) with
          | .error e => .error e
          | .ok s3 => vm_loop { vm with stack := s3 } (ip + 1) out errs
    | 6 => -- OP_SUB
      match stack_pop vm.stack with
      | .error e => .error e
      | .ok (b, s1) =>
        match stack_pop s1 with
        | .error e => .error e
        | .ok (a, s2) =>
          match stack_push s2 (wrap32 (a - b)) with
          | .error e => .error e
          | .ok s3 => vm_loop { vm with stack := s3 } (ip + 1) out errs
    | 7 => -- OP_MUL
      match stack_pop vm.stack with
      | .error e => .error e
      | .ok (b, s1) =>
        match stack_pop s1 with
        | .error e => .error e
        | .ok (a, s2) =>
          match stack_push s2 (wrap32 (a * b)) with
          | .error e => .error e
          | .ok s3 => vm_loop { vm with stack := s3 } (ip + 1) out errs
    | 8 => -- OP_DIV
      match stack_pop vm.stack with
      | .error e => .error e
      | .ok (b, s1) =>
        match stack_pop s1 with
        | .error e => .error e
        | .ok (a, s2) =>
          if b = 0 then
            .ok ⟨{ vm with stack := s2, running := false }, ip + 1, out,
                 errs ++ ["Error: Division by zero"]⟩
          else
            match stack_push s2 (wrap32 (Int.tdiv a b)) with
            | .error e => .error e
            | .ok s3 => vm_loop { vm with stack := s3 } (ip + 1) out errs
    | 16 => -- OP_PRINT
      match stack_pop vm.stack with
      | .error e => .error e
      | .ok (v, s) => vm_loop { vm with stack := s } (ip + 1) (out ++ [v]) errs
    | 17 => -- OP_STOP
      .ok ⟨{ vm with running := false }, ip + 1, out, errs⟩
    | op => -- default: unknown opcode (in particular OP_JMP … OP_STORE)
      .ok ⟨{ vm with running := false }, ip + 1, out,
           errs ++ ["Unknown opcode: " ++ toString op]⟩
  else
    .ok ⟨vm, ip, out, errs⟩
termination_by vm.code_segment.length - ip
decreasing_by all_goals simp_all; omega

/-- `vm_run`: sets `running = true`, `ip = 0` and drives the loop. -/
def vm_run (vm : VM) : Except String RunResult :=
  vm_loop { vm with running := true } 0 [] []

/-! ## Concrete programs used by the claims -/

/-- The bytecode `main` assembles: `[PUSH 5, PUSH 4, ADD, PRINT, STOP]`,
written into a segment of initial capacity 256. -/
def prog1 : CodeSegment :=
  code_segment_writeAll (code_segment_init 256)
    [OP_PUSH, 5, OP_PUSH, 4, OP_ADD, OP_PRINT, OP_STOP]

/-- The bytecode `[PUSH 10, PUSH 0, DIV, PRINT, STOP]`. -/
def prog2 : CodeSegment :=
  code_segment_writeAll (code_segment_init 256)
    [OP_PUSH, 10, OP_PUSH, 0, OP_DIV, OP_PRINT, OP_STOP]

/-- The one-instruction bytecode `[NOP]` (no `STOP`). -/
def progNop : CodeSegment :=
  code_segment_writeAll (code_segment_init 256) [OP_NOP]

/-- The bytecode `[PUSH 0, JZ 0]`: the condition 0 should make `JZ` jump. -/
def progJZ : CodeSegment :=
  code_segment_writeAll (code_segment_init 256) [OP_PUSH, 0, OP_JZ, 0]

/-- The bytecode `[PUSH 1, JNZ 0]`: the condition 1 should make `JNZ` jump. -/
def progJNZ : CodeSegment :=
  code_segment_writeAll (code_segment_init 256) [OP_PUSH, 1, OP_JNZ, 0]

/-- The bytecode `[CALL 4, STOP, NOP, RET]`: `CALL` should jump to the `RET`
at address 4, which should return to the `STOP` at address 2. -/
def progCALL : CodeSegment :=
  code_segment_writeAll (code_segment_init 256) [OP_CALL, 4, OP_STOP, OP_NOP, OP_RET]

/-! ## Push/pop sequences over the operand stack (for the LIFO law) -/

/-- Pushes a list of values left to right, stopping at the first fault. -/
def stack_pushN (s : Stack) : List Int → Except String Stack
  | [] => .ok s
  | v :: vs =>
    match stack_push s v with
    | .error e => .error e
    | .ok s' => stack_pushN s' vs

/-- One operand-stack operation: a push of a value, or a pop. -/
inductive StackOp where
  | push : Int → StackOp
  | pop : StackOp

/-- Runs a sequence of operations against the concrete `Stack`,
collecting the popped values in order; faults propagate. -/
def runOps (s : Stack) : List StackOp → Except String (Stack × List Int)
  | [] => .ok (s, [])
  | .push v :: rest =>
    match stack_push s v with
    | .error e => .error e
    | .ok s' => runOps s' rest
  | .pop :: rest =>
    match stack_pop s with
    | .error e => .error e
    | .ok (v, s') =>
      match runOps s' rest with
      | .error e => .error e
      | .ok (s'', vs) => .ok (s'', v :: vs)

/-- The abstract contents of a concrete stack, most recent push first:
`[data top, data (top-1), …, data 0]`. -/
def absStack (s : Stack) : List Int :=
  ((List.range (s.top + 1).toNat).reverse).map fun (n : Nat) => s.data (n : Int)

/-- The list-model run: a push conses onto the model list, a pop removes
and returns the head — by construction the most recently pushed value that
has not yet been popped (the LIFO discipline). `none` on pop-of-empty. -/
def modelRun (l : List Int) : List StackOp → Option (List Int × List Int)
  | [] => some (l, [])
  | .push v :: rest => modelRun (v :: l) rest
  | .pop :: rest =>
    match l with
    | [] => none
    | v :: l' =>
      match modelRun l' rest with
      | none => none
      | some (l'', vs) => some (l'', v :: vs)

/-- Number of pushes in a sequence of operations. -/
def countPush (ops : List StackOp) : Nat :=
  (ops.filter fun op => match op with | .push _ => true | .pop => false).length

/-- Number of pops in a sequence of operations. -/
def countPop (ops : List StackOp) : Nat :=
  (ops.filter fun op => match op with | .push _ => false | .pop => true).length

/-- A stack whose `top` index is at capacity (any push must fault). -/
def fullStack : Stack := ⟨fun _ => 0, STACK_MAX_SIZE - 1⟩

/-- Example operation sequence for the LIFO law. -/
def opsExample : List StackOp :=
  [.push 1, .push 2, .pop, .push 3, .pop, .pop]

/-- Example code segment for the append invariant: initial capacity 1,
two appended bytes (the second one, 300, is truncated to 44 by the
conversion to `uint8_t`). -/
def c8seg : CodeSegment :=
  code_segment_writeAll (code_segment_init 1) [7, 300]

/-- A VM about to execute `DIV` with divisor 0: code `[DIV]`, operand
stack holding two zeros. -/
def vmDiv0 : VM :=
  ⟨⟨fun _ => OP_DIV, 1, 256⟩, ⟨fun _ => 0, 1⟩, true⟩

/-- A VM about to execute `DIV` with divisor 2: code `[DIV]`, operand
stack holding 10 (below) and 2 (top). -/
def vmDiv2 : VM :=
  ⟨⟨fun _ => OP_DIV, 1, 256⟩, ⟨fun i => if i = 1 then 2 else 10, 1⟩, true⟩

/-- A VM about to execute `ADD` (and, per dispatch, `SUB`/`MUL` at the same
configuration): code `[ADD]`, operand stack holding 3 and 3. -/
def vmBinop : VM :=
  ⟨⟨fun _ => OP_ADD, 1, 256⟩, ⟨fun _ => 3, 1⟩, true⟩

/-- A VM about to execute `PUSH 200`: code `[PUSH, 200]`, empty stack. -/
def vmPush200 : VM :=
  ⟨⟨fun i => if i = 1 then 200 else OP_PUSH, 2, 256⟩, stack_init, true⟩

/-! ## Helper lemmas -/

/-- Every `.ok` return of the loop has either cleared the running flag
(`STOP`, division by zero, unknown opcode) or an instruction pointer at or
past the end of the code segment; proved by induction on the remaining
code length. -/
theorem vm_loop_stopped_aux : ∀ (n : Nat) (vm : VM) (ip : Nat) (out : List Int)
    (errs : List String) (r : RunResult),
    vm.code_segment.length - ip ≤ n →
    vm_loop vm ip out errs = .ok r →
    r.vm.running = false ∨ r.vm.code_segment.length ≤ r.finalIp := by
  intro n
  induction n with
  | zero =>
    intro vm ip out errs r hn heq
    rw [vm_loop.eq_def] at heq
    rw [dif_neg (by omega)] at heq
    injection heq with h
    subst h
    simp
    omega
  | succ n ih =>
    intro vm ip out errs r hn heq
    rw [vm_loop.eq_def] at heq
    by_cases hc : vm.running = true ∧ ip < vm.code_segment.length
    · rw [dif_pos hc] at heq
      obtain ⟨hr, hip⟩ := hc
      split at heq <;>
        (try (repeat' split at heq)) <;>
          first
            | (simp at heq; done)
            | (subst heq; simp)
            | (injection heq with h2; subst h2; simp)
            | (refine ih _ _ _ _ _ ?_ heq; simp; omega)
    · rw [dif_neg hc] at heq
      injection heq with h
      subst h
      simp
      by_cases hb : vm.running = true
      · simp only [hb, true_and] at hc
        right
        omega
      · left
        simpa using hb

/-- Pushing a list of values all of which fit (final top index within
capacity) succeeds, and the top index advances by the number of pushes. -/
theorem stack_pushN_ok : ∀ (vals : List Int) (s : Stack),
    s.top + vals.length ≤ STACK_MAX_SIZE - 1 →
    ∃ s', stack_pushN s vals = .ok s' ∧ s'.top = s.top + vals.length := by
  intro vals
  induction vals with
  | nil =>
    intro s h
    exact ⟨s, rfl, by simp⟩
  | cons v vs ih =>
    intro s h
    simp only [STACK_MAX_SIZE, List.length_cons] at h
    have hnotfull : ¬(stack_isFull s = true) := by
      simp [stack_isFull, STACK_MAX_SIZE]
      push_cast at h
      omega
    obtain ⟨s', hs', htop⟩ :=
      ih ⟨fun i => if i = s.top + 1 then v else s.data i, s.top + 1⟩
        (by simp only [STACK_MAX_SIZE]; push_cast at h ⊢; omega)
    refine ⟨s', ?_, ?_⟩
    · rw [stack_pushN]
      rw [stack_push, if_neg hnotfull]
      exact hs'
    · rw [htop]
      simp
      ring

/-- Pushing a list of values that would take the top index past capacity
faults with the overflow diagnostic. -/
theorem stack_pushN_overflow : ∀ (vals : List Int) (s : Stack),
    s.top ≤ STACK_MAX_SIZE - 1 →
    STACK_MAX_SIZE ≤ s.top + vals.length →
    stack_pushN s vals = .error "Stack overflow" := by
  intro vals
  induction vals with
  | nil =>
    intro s h1 h2
    simp only [STACK_MAX_SIZE, List.length_nil] at h1 h2
    omega
  | cons v vs ih =>
    intro s h1 h2
    simp only [STACK_MAX_SIZE, List.length_cons] at h1 h2
    rw [stack_pushN]
    by_cases hfull : stack_isFull s = true
    · rw [stack_push, if_pos hfull]
    · rw [stack_push, if_neg hfull]
      simp only [stack_isFull, STACK_MAX_SIZE, decide_eq_true_eq] at hfull
      exact ih _ (by simp only [STACK_MAX_SIZE]; omega)
        (by simp only [STACK_MAX_SIZE]; push_cast at h2 ⊢; omega)


theorem runOps_cons_push (s : Stack) (v : Int) (rest : List StackOp) :
    runOps s (.push v :: rest) =
      match stack_push s v with
      | .error e => .error e
      | .ok s' => runOps s' rest := rfl

theorem runOps_cons_pop (s : Stack) (rest : List StackOp) :
    runOps s (.pop :: rest) =
      match stack_pop s with
      | .error e => .error e
      | .ok (v, s') =>
        match runOps s' rest with
        | .error e => .error e
        | .ok (s'', vs) => .ok (s'', v :: vs) := rfl

theorem modelRun_cons_push (l : List Int) (v : Int) (rest : List StackOp) :
    modelRun l (.push v :: rest) = modelRun (v :: l) rest := rfl

theorem modelRun_cons_pop (v : Int) (l : List Int) (rest : List StackOp) :
    modelRun (v :: l) (.pop :: rest) =
      match modelRun l rest with
      | none => none
      | some (l'', vs) => some (l'', v :: vs) := rfl

theorem absStack_length (s : Stack) : (absStack s).length = (s.top + 1).toNat := by
  simp [absStack]

theorem absStack_push (s : Stack) (v : Int) (h : -1 ≤ s.top) :
    absStack ⟨fun i => if i = s.top + 1 then v else s.data i, s.top + 1⟩ =
      v :: absStack s := by
  unfold absStack
  have h1 : (s.top + 1 + 1).toNat = (s.top + 1).toNat + 1 := by omega
  rw [h1, List.range_succ]
  simp only [List.reverse_append, List.reverse_cons, List.reverse_nil, List.nil_append,
    List.singleton_append, List.map_cons]
  congr 1
  · have h2 : (((s.top + 1).toNat : Int)) = s.top + 1 := by omega
    rw [h2]
    simp
  · refine List.map_congr_left ?_
    intro a ha
    rw [List.mem_reverse, List.mem_range] at ha
    have h3 : ((a : Int)) ≠ s.top + 1 := by omega
    simp [h3]

theorem absStack_pop (s : Stack) (h : 0 ≤ s.top) :
    absStack s = s.data s.top :: absStack ⟨s.data, s.top - 1⟩ := by
  unfold absStack
  have h1 : (s.top + 1).toNat = (s.top - 1 + 1).toNat + 1 := by omega
  rw [h1, List.range_succ]
  simp only [List.reverse_append, List.reverse_cons, List.reverse_nil, List.nil_append,
    List.singleton_append, List.map_cons]
  congr 1
  have h2 : (((s.top - 1 + 1).toNat : Int)) = s.top := by omega
  rw [h2]

theorem runOps_sim : ∀ (ops : List StackOp) (s : Stack), -1 ≤ s.top →
    ∀ s' vs, runOps s ops = .ok (s', vs) →
      -1 ≤ s'.top ∧ modelRun (absStack s) ops = some (absStack s', vs) := by
  intro ops
  induction ops with
  | nil =>
    intro s h s' vs heq
    simp only [runOps, Except.ok.injEq, Prod.mk.injEq] at heq
    obtain ⟨rfl, rfl⟩ := heq
    exact ⟨h, rfl⟩
  | cons op rest ih =>
    intro s h s' vs heq
    cases op with
    | push v =>
      rw [runOps_cons_push] at heq
      by_cases hfull : stack_isFull s = true
      · rw [stack_push, if_pos hfull] at heq
        simp at heq
      · rw [stack_push, if_neg hfull] at heq
        simp only at heq
        obtain ⟨h1, h2⟩ := ih _ (by simp; omega) s' vs heq
        refine ⟨h1, ?_⟩
        rw [modelRun_cons_push]
        rw [← absStack_push s v h]
        exact h2
    | pop =>
      rw [runOps_cons_pop] at heq
      by_cases hemp : stack_isEmpty s = true
      · rw [stack_pop, if_pos hemp] at heq
        simp at heq
      · rw [stack_pop, if_neg hemp] at heq
        simp only at heq
        have htop : 0 ≤ s.top := by
          simp [stack_isEmpty] at hemp
          omega
        cases hrec : runOps ⟨s.data, s.top - 1⟩ rest with
        | error e =>
          rw [hrec] at heq
          simp at heq
        | ok p =>
          obtain ⟨s'', vs1⟩ := p
          rw [hrec] at heq
          simp only [Except.ok.injEq, Prod.mk.injEq] at heq
          obtain ⟨rfl, rfl⟩ := heq
          obtain ⟨h1, h2⟩ := ih _ (by simp; omega) s'' vs1 hrec
          refine ⟨h1, ?_⟩
          rw [absStack_pop s htop]
          rw [modelRun_cons_pop, h2]

theorem modelRun_length : ∀ (ops : List StackOp) (l l' : List Int) (vs : List Int),
    modelRun l ops = some (l', vs) →
    (l'.length : Int) = l.length + countPush ops - countPop ops := by
  intro ops
  induction ops with
  | nil =>
    intro l l' vs heq
    simp only [modelRun, Option.some.injEq, Prod.mk.injEq] at heq
    obtain ⟨rfl, rfl⟩ := heq
    simp [countPush, countPop]
  | cons op rest ih =>
    intro l l' vs heq
    cases op with
    | push v =>
      rw [modelRun_cons_push] at heq
      have hh := ih (v :: l) l' vs heq
      simp only [countPush, countPop, List.filter, List.length_cons] at hh ⊢
      push_cast at hh ⊢
      omega
    | pop =>
      cases l with
      | nil => simp [modelRun] at heq
      | cons v l0 =>
        rw [modelRun_cons_pop] at heq
        cases hrec : modelRun l0 rest with
        | none =>
          rw [hrec] at heq
          simp at heq
        | some p =>
          obtain ⟨l'', vs1⟩ := p
          rw [hrec] at heq
          simp only [Option.some.injEq, Prod.mk.injEq] at heq
          obtain ⟨rfl, rfl⟩ := heq
          have hh := ih l0 l'' vs1 hrec
          simp only [countPush, countPop, List.filter, List.length_cons] at hh ⊢
          push_cast at hh ⊢
          omega

/-- One append preserves the `length ≤ capacity` invariant (doubling the
capacity when full), writes the byte at the old length, and leaves every
previously written byte in place. -/
theorem code_segment_write_spec (seg : CodeSegment) (b : Nat)
    (hcap : 0 < seg.capacity) (hlen : seg.length ≤ seg.capacity) :
    0 < (code_segment_write seg b).capacity ∧
    (code_segment_write seg b).length ≤ (code_segment_write seg b).capacity ∧
    (code_segment_write seg b).length = seg.length + 1 ∧
    (code_segment_write seg b).code seg.length = b % 256 ∧
    (∀ i, i < seg.length → (code_segment_write seg b).code i = seg.code i) := by
  by_cases hc : seg.capacity ≤ seg.length
  · simp only [code_segment_write, if_pos hc]
    refine ⟨by omega, by omega, by trivial, by simp, ?_⟩
    intro i hi
    simp [Nat.ne_of_lt hi]
  · simp only [code_segment_write, if_neg hc]
    refine ⟨by omega, by omega, by trivial, by simp, ?_⟩
    intro i hi
    simp [Nat.ne_of_lt hi]

/-- Appending a list of bytes preserves the invariant and writes byte `j`
of the list at index `old length + j`, keeping the old contents. -/
theorem code_segment_writeAll_spec : ∀ (bytes : List Nat) (seg : CodeSegment),
    0 < seg.capacity → seg.length ≤ seg.capacity →
    0 < (code_segment_writeAll seg bytes).capacity ∧
    (code_segment_writeAll seg bytes).length ≤ (code_segment_writeAll seg bytes).capacity ∧
    (code_segment_writeAll seg bytes).length = seg.length + bytes.length ∧
    (∀ i, i < seg.length → (code_segment_writeAll seg bytes).code i = seg.code i) ∧
    (∀ j, j < bytes.length →
      (code_segment_writeAll seg bytes).code (seg.length + j) = bytes.getD j 0 % 256) := by
  intro bytes
  induction bytes with
  | nil =>
    intro seg hcap hlen
    refine ⟨hcap, hlen, by simp [code_segment_writeAll], by simp [code_segment_writeAll], ?_⟩
    intro j hj
    simp at hj
  | cons b bs ih =>
    intro seg hcap hlen
    obtain ⟨w1, w2, w3, w4, w5⟩ := code_segment_write_spec seg b hcap hlen
    have hall : code_segment_writeAll seg (b :: bs) =
        code_segment_writeAll (code_segment_write seg b) bs := by
      simp [code_segment_writeAll]
    rw [hall]
    obtain ⟨i1, i2, i3, i4, i5⟩ := ih (code_segment_write seg b) w1 w2
    refine ⟨i1, i2, by simp only [List.length_cons]; omega, ?_, ?_⟩
    · intro i hi
      rw [i4 i (by omega)]
      exact w5 i hi
    · intro j hj
      cases j with
      | zero =>
        rw [Nat.add_zero]
        rw [i4 seg.length (by omega)]
        simpa using w4
      | succ j =>
        have : seg.length + (j + 1) = (code_segment_write seg b).length + j := by omega
        rw [this]
        rw [i5 j (by simpa using hj)]
        simp

/-! ## Claim theorems -/

/-- C1: running the engine over `[PUSH 5, PUSH 4, ADD, PRINT, STOP]` emits
the decimal value 9 (with its line terminator, one `output` entry), emits
no diagnostic, and halts with the running flag false. -/
theorem C1_sample_program_prints_nine :
    (vm_run (vm_init prog1)).map
        (fun r => (r.output, r.errors, r.vm.running)) =
      .ok ([9], [], false) := by
  simp [vm_run, vm_loop, vm_init, prog1, code_segment_writeAll, code_segment_init,
    code_segment_write, stack_init, stack_push, stack_pop, stack_isFull, stack_isEmpty,
    OP_PUSH, OP_ADD, OP_PRINT, OP_STOP, STACK_MAX_SIZE, wrap32, Except.map]

/-- C3 (code bug): the dispatch loop has no `JZ`/`JNZ` cases, so executing
either falls into the `default` case: on `[PUSH 0, JZ 0]` the engine
reports "Unknown opcode: 10", halts the run, performs no jump (the final
instruction pointer is 3, not the target 0) and does not consume the
condition value (the stack top index is still 0); likewise `[PUSH 1,
JNZ 0]` reports "Unknown opcode: 11" — contradicting the claimed pop-and-
branch semantics. -/
theorem C3_jz_jnz_fall_to_unknown_opcode :
    (vm_run (vm_init progJZ)).map
        (fun r => (r.output, r.errors, r.vm.running, r.vm.stack.top, r.finalIp)) =
      .ok ([], ["Unknown opcode: 10"], false, 0, 3) ∧
    (vm_run (vm_init progJNZ)).map
        (fun r => (r.output, r.errors, r.vm.running, r.vm.stack.top, r.finalIp)) =
      .ok ([], ["Unknown opcode: 11"], false, 0, 3) := by
  constructor <;>
  · simp [vm_run, vm_loop, vm_init, progJZ, progJNZ, code_segment_writeAll,
      code_segment_init, code_segment_write, stack_init, stack_push, stack_isFull,
      OP_PUSH, OP_JZ, OP_JNZ, STACK_MAX_SIZE, Except.map]
    rfl

/-- C4 (code bug): the dispatch loop has no `CALL`/`RET` cases (and the VM
struct holds no call stack), so on `[CALL 4, STOP, NOP, RET]` executing
`CALL` falls into the `default` case: the engine reports
"Unknown opcode: 12" and halts with the instruction pointer at 1 — it
neither pushes a call frame nor jumps to the target, so the claimed
CALL/RET round trip never happens. -/
theorem C4_call_falls_to_unknown_opcode :
    (vm_run (vm_init progCALL)).map
        (fun r => (r.output, r.errors, r.vm.running, r.finalIp)) =
      .ok ([], ["Unknown opcode: 12"], false, 1) := by
  simp [vm_run, vm_loop, vm_init, progCALL, code_segment_writeAll,
    code_segment_init, code_segment_write, stack_init,
    OP_CALL, OP_STOP, OP_NOP, OP_RET, Except.map]
  rfl

/-- C2: whenever the loop executes `DIV` it pops `b` (the top) first, then
`a`. If `b = 0` it pops exactly the two operands (top index drops by 2, no
slot is rewritten, so nothing is pushed), reports "Error: Division by
zero", clears the running flag, and the run returns cleanly with `.ok`
(the process-fatal `.error` channel is not used). Otherwise it pushes
`a / b` (C truncating division, wrapped to signed 32 bits): the
continuation state has top lowered by one and slot `top - 1` rewritten to
`wrap32 (a.tdiv b)`. In particular on `[PUSH 10, PUSH 0, DIV, PRINT,
STOP]` nothing is ever printed: `PRINT` is not reached. -/
theorem C2_div_by_zero_halts_run :
    (∀ (vm : VM) (ip : Nat) (out : List Int) (errs : List String),
      vm.running = true → ip < vm.code_segment.length →
      vm.code_segment.code ip = OP_DIV →
      1 ≤ vm.stack.top →
      vm.stack.data vm.stack.top = 0 →
      vm_loop vm ip out errs =
        .ok ⟨{ vm with stack := ⟨vm.stack.data, vm.stack.top - 2⟩, running := false },
             ip + 1, out, errs ++ ["Error: Division by zero"]⟩) ∧
    (∀ (vm : VM) (ip : Nat) (out : List Int) (errs : List String),
      vm.running = true → ip < vm.code_segment.length →
      vm.code_segment.code ip = OP_DIV →
      1 ≤ vm.stack.top → vm.stack.top ≤ STACK_MAX_SIZE - 1 →
      vm.stack.data vm.stack.top ≠ 0 →
      vm_loop vm ip out errs =
        vm_loop { vm with stack :=
            ⟨fun i => if i = vm.stack.top - 1 then
                wrap32 (Int.tdiv (vm.stack.data (vm.stack.top - 1)) (vm.stack.data vm.stack.top))
              else vm.stack.data i, vm.stack.top - 1⟩ } (ip + 1) out errs) ∧
    (vm_run (vm_init prog2)).map
        (fun r => (r.output, r.errors, r.vm.running)) =
      .ok ([], ["Error: Division by zero"], false) := by
  refine ⟨?_, ?_, ?_⟩
  · intro vm ip out errs h1 h2 h3 h4 h5
    rw [vm_loop.eq_def]
    rw [dif_pos ⟨h1, h2⟩]
    simp only [h3, OP_DIV]
    simp only [stack_pop, stack_isEmpty]
    have e1 : (vm.stack.top == -1) = false := by simp; omega
    have e2 : (vm.stack.top - 1 == -1) = false := by simp; omega
    simp only [e1, e2, if_false, Bool.false_eq_true, ite_false, h5, ite_true]
    have e3 : vm.stack.top - 1 - 1 = vm.stack.top - 2 := by ring
    simp [e3]
  · intro vm ip out errs h1 h2 h3 h4 h6 h5
    conv_lhs => rw [vm_loop.eq_def]
    rw [dif_pos ⟨h1, h2⟩]
    simp only [h3, OP_DIV]
    simp only [stack_pop, stack_isEmpty, stack_push, stack_isFull, STACK_MAX_SIZE] at h6 ⊢
    have e1 : (vm.stack.top == -1) = false := by simp; omega
    have e2 : (vm.stack.top - 1 == -1) = false := by simp; omega
    simp only [e1, e2, Bool.false_eq_true, ite_false]
    rw [if_neg h5]
    have e4 : vm.stack.top - 2 + 1 = vm.stack.top - 1 := by ring
    simp [e4]
    rw [if_neg (show ¬((1023 : Int) ≤ vm.stack.top - 1 - 1) from by omega)]
  · simp [vm_run, vm_loop, vm_init, prog2, code_segment_writeAll, code_segment_init,
      code_segment_write, stack_init, stack_push, stack_pop, stack_isFull,
      stack_isEmpty, OP_PUSH, OP_DIV, STACK_MAX_SIZE, Except.map]

/-- Witness for C2: a concrete `DIV` on divisor 0 (code `[DIV]`, stack
holding 0, 0) instantiating the zero-divisor conjunct, and a concrete
`DIV` of 10 by 2 (code `[DIV]`, stack holding 10 and 2) instantiating the
nonzero-divisor conjunct. -/
theorem C2_div_by_zero_halts_run_witness :
    (vm_loop vmDiv0 0 [] [] =
      .ok ⟨{ vmDiv0 with stack := ⟨vmDiv0.stack.data, vmDiv0.stack.top - 2⟩, running := false },
           0 + 1, [], [] ++ ["Error: Division by zero"]⟩) ∧
    (vm_loop vmDiv2 0 [] [] =
      vm_loop { vmDiv2 with stack :=
          ⟨fun i => if i = vmDiv2.stack.top - 1 then
              wrap32 (Int.tdiv (vmDiv2.stack.data (vmDiv2.stack.top - 1))
                (vmDiv2.stack.data vmDiv2.stack.top))
            else vmDiv2.stack.data i, vmDiv2.stack.top - 1⟩ } (0 + 1) [] []) := by
  constructor
  · exact C2_div_by_zero_halts_run.1 vmDiv0 0 [] [] rfl (by decide) rfl
      (by decide) rfl
  · exact C2_div_by_zero_halts_run.2.1 vmDiv2 0 [] [] rfl (by decide) rfl
      (by decide) (by decide) (by decide)

/-- C5: whenever the loop executes `ADD`, `SUB` or `MUL` with at least two
values on the operand stack, it pops exactly two values — `b` (the top,
right operand) first, then `a` — and pushes exactly one result, `a ∘ b`
wrapped to signed 32 bits: the continuation state has top index lowered by
one, slot `top - 1` rewritten to `wrap32 (a ∘ b)`, and all other slots
unchanged. -/
theorem C5_add_sub_mul_pop_two_push_one :
    ∀ (vm : VM) (ip : Nat) (out : List Int) (errs : List String),
      vm.running = true → ip < vm.code_segment.length →
      1 ≤ vm.stack.top → vm.stack.top ≤ STACK_MAX_SIZE - 1 →
      ((vm.code_segment.code ip = OP_ADD →
        vm_loop vm ip out errs =
          vm_loop { vm with stack :=
              ⟨fun i => if i = vm.stack.top - 1 then
                  wrap32 (vm.stack.data (vm.stack.top - 1) + vm.stack.data vm.stack.top)
                else vm.stack.data i, vm.stack.top - 1⟩ } (ip + 1) out errs) ∧
      (vm.code_segment.code ip = OP_SUB →
        vm_loop vm ip out errs =
          vm_loop { vm with stack :=
              ⟨fun i => if i = vm.stack.top - 1 then
                  wrap32 (vm.stack.data (vm.stack.top - 1) - vm.stack.data vm.stack.top)
                else vm.stack.data i, vm.stack.top - 1⟩ } (ip + 1) out errs) ∧
      (vm.code_segment.code ip = OP_MUL →
        vm_loop vm ip out errs =
          vm_loop { vm with stack :=
              ⟨fun i => if i = vm.stack.top - 1 then
                  wrap32 (vm.stack.data (vm.stack.top - 1) * vm.stack.data vm.stack.top)
                else vm.stack.data i, vm.stack.top - 1⟩ } (ip + 1) out errs)) := by
  intro vm ip out errs h1 h2 h4 h6
  refine ⟨fun h3 => ?_, fun h3 => ?_, fun h3 => ?_⟩ <;>
  · conv_lhs => rw [vm_loop.eq_def]
    rw [dif_pos ⟨h1, h2⟩]
    simp only [h3, OP_ADD, OP_SUB, OP_MUL]
    simp only [stack_pop, stack_isEmpty, stack_push, stack_isFull, STACK_MAX_SIZE] at h6 ⊢
    have e1 : (vm.stack.top == -1) = false := by simp; omega
    have e2 : (vm.stack.top - 1 == -1) = false := by simp; omega
    simp only [e1, e2, Bool.false_eq_true, ite_false]
    have e4 : vm.stack.top - 2 + 1 = vm.stack.top - 1 := by ring
    simp [e4]
    rw [if_neg (show ¬((1023 : Int) ≤ vm.stack.top - 1 - 1) from by omega)]

/-- Witness for C5: a concrete `ADD` (code `[ADD]`, stack holding 3, 3),
obtained by instantiating the `ADD` conjunct. -/
theorem C5_add_sub_mul_pop_two_push_one_witness :
    vm_loop vmBinop 0 [] [] =
      vm_loop { vmBinop with stack :=
          ⟨fun i => if i = vmBinop.stack.top - 1 then
              wrap32 (vmBinop.stack.data (vmBinop.stack.top - 1) +
                vmBinop.stack.data vmBinop.stack.top)
            else vmBinop.stack.data i, vmBinop.stack.top - 1⟩ } (0 + 1) [] [] := by
  exact (C5_add_sub_mul_pop_two_push_one vmBinop 0 [] [] rfl (by decide)
    (by decide) (by decide)).1 rfl

/-- C10: whenever the loop executes `PUSH`, the immediate byte `b` (a
`uint8_t`, so `b < 256`) is zero-extended: the value pushed onto the
operand stack is exactly `(b : Int)`, which satisfies `0 ≤ b ≤ 255` — it
is never negative, also for bytes 128–255. -/
theorem C10_push_zero_extends_immediate :
    ∀ (vm : VM) (ip : Nat) (out : List Int) (errs : List String),
      vm.running = true → ip < vm.code_segment.length →
      vm.code_segment.code ip = OP_PUSH →
      vm.code_segment.code (ip + 1) < 256 →
      vm.stack.top < STACK_MAX_SIZE - 1 →
      (vm_loop vm ip out errs =
        vm_loop { vm with stack :=
            ⟨fun i => if i = vm.stack.top + 1 then (vm.code_segment.code (ip + 1) : Int)
              else vm.stack.data i, vm.stack.top + 1⟩ } (ip + 2) out errs) ∧
      (0 : Int) ≤ (vm.code_segment.code (ip + 1) : Int) ∧
      (vm.code_segment.code (ip + 1) : Int) ≤ 255 := by
  intro vm ip out errs h1 h2 h3 h4 h5
  refine ⟨?_, by positivity, by omega⟩
  conv_lhs => rw [vm_loop.eq_def]
  rw [dif_pos ⟨h1, h2⟩]
  simp only [h3, OP_PUSH]
  simp only [stack_push]
  rw [if_neg (show ¬(stack_isFull vm.stack = true) from by
    simp only [stack_isFull, STACK_MAX_SIZE] at h5 ⊢
    simp
    omega)]

/-- Witness for C10: a concrete `PUSH 200` (byte 200 would be negative if
sign-extended; the pushed value is 200). -/
theorem C10_push_zero_extends_immediate_witness :
    (vm_loop vmPush200 0 [] [] =
      vm_loop { vmPush200 with stack :=
          ⟨fun i => if i = vmPush200.stack.top + 1 then
              (vmPush200.code_segment.code (0 + 1) : Int)
            else vmPush200.stack.data i, vmPush200.stack.top + 1⟩ } (0 + 2) [] []) ∧
    (0 : Int) ≤ (vmPush200.code_segment.code (0 + 1) : Int) ∧
    (vmPush200.code_segment.code (0 + 1) : Int) ≤ 255 := by
  exact C10_push_zero_extends_immediate vmPush200 0 [] [] rfl (by decide)
    (by decide) (by decide) (by decide)

/-- C6: a push on a stack whose top index is already at capacity returns
the StackOverflow fault and produces no new stack state (nothing is
stored, the top index does not advance — in C, `exit(1)` fires before the
store); consequently pushing `STACK_MAX_SIZE + 1` values onto a fresh
stack faults, while `STACK_MAX_SIZE` pushes all succeed. -/
theorem C6_push_overflow_at_capacity :
    (∀ (s : Stack) (v : Int), stack_isFull s = true →
      stack_push s v = .error "Stack overflow") ∧
    (∀ v : Int,
      stack_pushN stack_init (List.replicate (STACK_MAX_SIZE.toNat + 1) v) =
        .error "Stack overflow") ∧
    (∀ v : Int,
      (stack_pushN stack_init (List.replicate STACK_MAX_SIZE.toNat v)).isOk = true) := by
  refine ⟨?_, ?_, ?_⟩
  · intro s v hfull
    rw [stack_push, if_pos hfull]
  · intro v
    refine stack_pushN_overflow _ stack_init (by simp [stack_init, STACK_MAX_SIZE]) ?_
    rw [List.length_replicate]
    show STACK_MAX_SIZE ≤ stack_init.top + ((1024 : Nat) + 1 : Nat)
    simp [stack_init, STACK_MAX_SIZE]
  · intro v
    obtain ⟨s', hs', _⟩ :=
      stack_pushN_ok (List.replicate STACK_MAX_SIZE.toNat v) stack_init
        (by rw [List.length_replicate]
            show stack_init.top + ((1024 : Nat) : Int) ≤ STACK_MAX_SIZE - 1
            simp [stack_init, STACK_MAX_SIZE])
    rw [hs']
    rfl

/-- Witness for C6: pushing onto a concrete full stack faults, as does the
1025th push on a fresh stack. -/
theorem C6_push_overflow_at_capacity_witness :
    stack_push fullStack 7 = .error "Stack overflow" ∧
    stack_pushN stack_init (List.replicate (STACK_MAX_SIZE.toNat + 1) 7) =
      .error "Stack overflow" :=
  ⟨C6_push_overflow_at_capacity.1 fullStack 7 (by rfl),
   C6_push_overflow_at_capacity.2.1 7⟩

/-- C7 (counterexample): on the bytecode `[NOP]` the loop exits because the
instruction pointer reaches the end of the code segment, and `vm_run`
returns with the running flag still `true` — not `false` as claimed. -/
theorem C7_counterexample_nop_keeps_running :
    (vm_run (vm_init progNop)).map (fun r => (r.vm.running, r.finalIp)) =
      .ok (true, 1) := by
  simp [vm_run, vm_loop, vm_init, progNop, code_segment_writeAll,
    code_segment_init, code_segment_write, stack_init, OP_NOP, Except.map]

/-- C7 (amended): whenever `vm_run` returns, either the running flag is
false (the run ended via `STOP` or a run-terminating fault), or the loop
exited because the instruction pointer reached the code segment's length —
and in that case the running flag is left `true`, not reset. -/
theorem C7_run_returns_stopped_or_exhausted :
    ∀ (vm : VM) (r : RunResult), vm_run vm = .ok r →
      r.vm.running = false ∨ r.vm.code_segment.length ≤ r.finalIp := by
  intro vm r h
  exact vm_loop_stopped_aux vm.code_segment.length _ 0 [] [] r (by simp) h

/-- Witness for C7 (amended): the `[NOP]` run, which exits by exhaustion
with the running flag still true. -/
theorem C7_run_returns_stopped_or_exhausted_witness :
    (vm_run (vm_init progNop) = .ok ⟨⟨progNop, stack_init, true⟩, 1, [], []⟩) ∧
    ((⟨⟨progNop, stack_init, true⟩, 1, [], []⟩ : RunResult).vm.running = false ∨
      (⟨⟨progNop, stack_init, true⟩, 1, [], []⟩ : RunResult).vm.code_segment.length ≤
        (⟨⟨progNop, stack_init, true⟩, 1, [], []⟩ : RunResult).finalIp) := by
  have he : vm_run (vm_init progNop) = .ok ⟨⟨progNop, stack_init, true⟩, 1, [], []⟩ := by
    simp [vm_run, vm_loop, vm_init, progNop, code_segment_writeAll,
      code_segment_init, code_segment_write, OP_NOP]
  exact ⟨he, C7_run_returns_stopped_or_exhausted (vm_init progNop)
    ⟨⟨progNop, stack_init, true⟩, 1, [], []⟩ he⟩

/-- C8: a single append on any segment satisfying the invariant
(`0 < capacity`, `length ≤ capacity`) keeps `length ≤ capacity` (doubling
when full), writes the byte (as `uint8_t`, i.e. mod 256) at the current
length, and preserves every previously written byte; consequently a
segment built from `init (cap > 0)` by appends only has `length ≤
capacity` after every operation and holds byte `j` at index `j`. -/
theorem C8_append_keeps_invariant_and_bytes :
    (∀ (seg : CodeSegment) (b : Nat), 0 < seg.capacity → seg.length ≤ seg.capacity →
      (code_segment_write seg b).length ≤ (code_segment_write seg b).capacity ∧
      (code_segment_write seg b).code seg.length = b % 256 ∧
      (∀ i, i < seg.length → (code_segment_write seg b).code i = seg.code i)) ∧
    (∀ (cap : Nat), 0 < cap → ∀ (bytes : List Nat),
      (code_segment_writeAll (code_segment_init cap) bytes).length ≤
        (code_segment_writeAll (code_segment_init cap) bytes).capacity ∧
      (code_segment_writeAll (code_segment_init cap) bytes).length = bytes.length ∧
      (∀ j, j < bytes.length →
        (code_segment_writeAll (code_segment_init cap) bytes).code j =
          bytes.getD j 0 % 256)) := by
  constructor
  · intro seg b h1 h2
    obtain ⟨_, w2, _, w4, w5⟩ := code_segment_write_spec seg b h1 h2
    exact ⟨w2, w4, w5⟩
  · intro cap hcap bytes
    obtain ⟨_, i2, i3, _, i5⟩ :=
      code_segment_writeAll_spec bytes (code_segment_init cap) hcap (by
        simp [code_segment_init])
    refine ⟨i2, by simpa [code_segment_init] using i3, ?_⟩
    intro j hj
    have := i5 j hj
    simpa [code_segment_init] using this

/-- Witness for C8: initial capacity 1, bytes 7 then 300 (truncated to 44);
the invariant holds and both bytes sit at their indices. -/
theorem C8_append_keeps_invariant_and_bytes_witness :
    ((code_segment_write (code_segment_init 1) 300).code (code_segment_init 1).length =
      300 % 256) ∧
    c8seg.length ≤ c8seg.capacity ∧
    c8seg.code 1 = [7, 300].getD 1 0 % 256 := by
  refine ⟨(C8_append_keeps_invariant_and_bytes.1 (code_segment_init 1) 300
    (by decide) (by decide)).2.1, ?_, ?_⟩
  · exact (C8_append_keeps_invariant_and_bytes.2 1 (by decide) [7, 300]).1
  · exact (C8_append_keeps_invariant_and_bytes.2 1 (by decide) [7, 300]).2.2 1 (by decide)

/-- C9: for every valid sequence of pushes and pops (one the concrete
stack executes without fault), the concrete run is simulated by the list
model in which push conses and pop removes and returns the head — the most
recently pushed value not yet popped — so values pop in strict reverse
push order, and the final top index satisfies
`top + 1 = pushes - pops`. -/
theorem C9_lifo (ops : List StackOp)
    (h : (runOps stack_init ops).toOption.isSome = true) :
    ((runOps stack_init ops).toOption.map (fun p => (absStack p.1, p.2)) =
      modelRun [] ops) ∧
    (∀ s' vs, runOps stack_init ops = .ok (s', vs) →
      s'.top + 1 = (countPush ops : Int) - countPop ops) := by
  cases heq : runOps stack_init ops with
  | error e =>
    rw [heq] at h
    simp [Except.toOption] at h
  | ok p =>
    obtain ⟨s', vs⟩ := p
    have habs : absStack stack_init = [] := rfl
    obtain ⟨h1, h2⟩ := runOps_sim ops stack_init (by simp [stack_init]) s' vs heq
    rw [habs] at h2
    constructor
    · simp only [Except.toOption, Option.map_some]
      exact h2.symm
    · intro s'' vs' heq2
      simp only [Except.ok.injEq, Prod.mk.injEq] at heq2
      obtain ⟨rfl, rfl⟩ := heq2
      have hl := modelRun_length ops [] (absStack s') vs h2
      rw [absStack_length] at hl
      simp only [List.length_nil] at hl
      omega

/-- Witness for C9: the sequence push 1, push 2, pop, push 3, pop, pop —
the concrete run pops 2, 3, 1 (strict reverse order of the pending pushes),
matching the list model. -/
theorem C9_lifo_witness :
    (runOps stack_init opsExample).toOption.map (fun p => (absStack p.1, p.2)) =
      modelRun [] opsExample :=
  (C9_lifo opsExample (by rfl)).1

end SBVM
